import Mathlib

/-
Verification of the KeyValueStore library (HarryPehkonen/KeyValueStore).

Shallow embedding of:
  include/keyvaluestore/KeyValueStore.hpp        (ValueType)
  include/keyvaluestore/MemoryKeyValueStore.hpp  (memory backend)
  src/sqlite/SQLiteKeyValueStore.cpp             (durable/SQLite backend)

Modelling conventions:
  * `std::string` is modelled as Lean `String` (a list of characters, which
    may contain the NUL character '\x00').
  * The C++ `int` (used both for `script_id` and for the integer alternative
    of `ValueType`) is a 32-bit two's-complement integer on the target
    platforms; the integer payload is modelled as the subtype `CInt` of
    `Int` bounded by [-2^31, 2^31-1].  Partition / script ids are modelled
    as unbounded `Int` (their width plays no role in the claims).
  * `double` is abstract: the development is parametrised by a type `D`
    together with the platform's formatting function (stringstream with
    precision max_digits10, SQLiteKeyValueStore.cpp:199-203) and parsing
    function (std::stod, SQLiteKeyValueStore.cpp:233-245), bundled as
    `FloatIO D`.  `parse s = some (d, pos)` means stod returns value `d`
    consuming `pos` characters; `none` means stod throws.
  * Exceptions (KeyValueStoreError) are modelled with `Except String`.
  * `sqlite3_bind_text(stmt, n, s.c_str(), -1, SQLITE_STATIC)` passes the
    bytes of `s` only up to the first NUL terminator; this is modelled by
    `cString`, which truncates a string at its first NUL character.
  * The memory backend's `std::unordered_map` and the SQLite table (primary
    key (script_id, key)) are modelled extensionally as association lists.
-/

set_option autoImplicit false

namespace KVStore

/-! ## The C++ `int` model -/

def intMin : Int := -(2 ^ 31)

def intMax : Int := 2 ^ 31 - 1

/-- The values representable by the C++ `int` of the target platform. -/
abbrev CInt := {n : Int // intMin ≤ n ∧ n ≤ intMax}

/-! ## Platform double interface -/

/-- The platform facilities used for the `double` alternative: `fmt` is the
stringstream formatting at max_digits10 precision, `parse` is std::stod
(returning the parsed value and the number of characters consumed, or `none`
when stod throws). -/
structure FloatIO (D : Type) where
  fmt : D → String
  parse : String → Option (D × Nat)

/-! ## ValueType (KeyValueStore.hpp:11) -/

/-- `using ValueType = std::variant<std::string, int, double, bool>;` -/
inductive ValueType (D : Type) where
  | vStr (s : String)
  | vInt (n : CInt)
  | vDbl (d : D)
  | vBool (b : Bool)
deriving DecidableEq

/-! ## Decimal conversion: std::to_string and std::stoi -/

def digitChar (d : Nat) : Char := Char.ofNat (48 + d)

/-- Decimal digits of `n`, most significant first. -/
def natDigits (n : Nat) : List Char :=
  if _h : n < 10 then [digitChar n]
  else natDigits (n / 10) ++ [digitChar (n % 10)]
decreasing_by exact Nat.div_lt_self (by omega) (by omega)

/-- `std::to_string(int)`: minus sign (for negatives) followed by the decimal
digits, no padding (SQLiteKeyValueStore.cpp:196). -/
def cppToString (n : Int) : String :=
  if n < 0 then String.mk ('-' :: natDigits (-n).toNat)
  else String.mk (natDigits n.toNat)

/-- The whitespace characters skipped by strtol / strtod (C `isspace`). -/
def isSpaceC (c : Char) : Bool :=
  c = ' ' || c = '\t' || c = '\n' || c = '\x0b' || c = '\x0c' || c = '\r'

def isDigitC (c : Char) : Bool := 48 ≤ c.toNat && c.toNat ≤ 57

def digitVal (c : Char) : Nat := c.toNat - 48

def digitsVal (l : List Char) : Nat := l.foldl (fun a c => 10 * a + digitVal c) 0

/-- Shared tail of `stoiCore`: after the optional sign, take the longest run
of decimal digits; no digits means std::stoi throws invalid_argument, a value
outside the `int` range means it throws out_of_range; otherwise the parsed
value and the index of the first unused character are returned. -/
def stoiDigits (sign : Int) (pre : Nat) (t : List Char) : Option (CInt × Nat) :=
  let ds := t.takeWhile isDigitC
  if ds.isEmpty then none
  else
    let v : Int := sign * (digitsVal ds : Nat)
    if h : intMin ≤ v ∧ v ≤ intMax then some (⟨v, h⟩, pre + ds.length)
    else none

/-- `std::stoi(s, &pos, 10)`: skip C whitespace, accept one optional sign,
then base-10 digits. -/
def stoiCore (l : List Char) : Option (CInt × Nat) :=
  let ws := (l.takeWhile isSpaceC).length
  match l.dropWhile isSpaceC with
  | [] => none
  | c :: t =>
    if c = '-' then stoiDigits (-1) (ws + 1) t
    else if c = '+' then stoiDigits 1 (ws + 1) t
    else stoiDigits 1 ws (c :: t)

def stoiModel (s : String) : Option (CInt × Nat) := stoiCore s.data

/-! ## Serialization (SQLiteKeyValueStore.cpp:191-260) -/

variable {D : Type}

/-- `SQLiteKeyValueStore::serializeValue` (SQLiteKeyValueStore.cpp:191-210). -/
def serializeValue [DecidableEq D] (fio : FloatIO D) : ValueType D → String × Char
  | .vStr s => (s, 's')
  | .vInt n => (cppToString n.val, 'i')
  | .vDbl d => (fio.fmt d, 'd')
  | .vBool b => (if b then "1" else "0", 'b')

/-- `SQLiteKeyValueStore::deserializeValue` (SQLiteKeyValueStore.cpp:212-260):
tag dispatch; the 'i' and 'd' branches require the whole string to be
consumed (`pos != value_str.length()` is an error); the 'b' branch accepts
exactly "1" and "0"; an unknown tag is an error. -/
def deserializeValue [DecidableEq D] (fio : FloatIO D) (value_str : String)
    (type_indicator : Char) : Except String (ValueType D) :=
  match type_indicator with
  | 's' => .ok (.vStr value_str)
  | 'i' =>
    match stoiModel value_str with
    | none => .error "Failed to parse integer value"
    | some (v, pos) =>
      if pos = value_str.length then .ok (.vInt v)
      else .error "Invalid integer format"
  | 'd' =>
    match fio.parse value_str with
    | none => .error "Failed to parse double value"
    | some (d, pos) =>
      if pos = value_str.length then .ok (.vDbl d)
      else .error "Invalid double format"
  | 'b' =>
    if value_str = "1" then .ok (.vBool true)
    else if value_str = "0" then .ok (.vBool false)
    else .error "Invalid boolean value"
  | _ => .error "Unknown type indicator"

/-! ## Memory backend (MemoryKeyValueStore.hpp) -/

/-- The `std::unordered_map<KeyType, ValueType, KeyHash>` store, modelled
extensionally as an association list whose keys are unique in every
reachable state. -/
abbrev MemState (D : Type) := List ((Int × String) × ValueType D)

/-- `MemoryKeyValueStore::makeKey` (MemoryKeyValueStore.hpp:175-177). -/
def makeKey (script_id : Int) (key : String) : Int × String := (script_id, key)

/-- `MemoryKeyValueStore::set` (MemoryKeyValueStore.hpp:40-44):
`store_[makeKey(script_id, key)] = value` inserts or overwrites. -/
def memSet [DecidableEq D] (st : MemState D) (script_id : Int) (key : String)
    (value : ValueType D) : MemState D :=
  st.filter (fun e => e.1 ≠ makeKey script_id key) ++ [(makeKey script_id key, value)]

/-- `MemoryKeyValueStore::get` (MemoryKeyValueStore.hpp:60-68). -/
def memGet [DecidableEq D] (st : MemState D) (script_id : Int) (key : String) :
    Option (ValueType D) :=
  (st.find? (fun e => e.1 = makeKey script_id key)).map (fun e => e.2)

/-- `MemoryKeyValueStore::exists` (MemoryKeyValueStore.hpp:83-86). -/
def memExists [DecidableEq D] (st : MemState D) (script_id : Int) (key : String) : Bool :=
  st.any (fun e => e.1 = makeKey script_id key)

/-- `MemoryKeyValueStore::remove` (MemoryKeyValueStore.hpp:101-104):
`store_.erase(makeKey(script_id, key)) > 0`, together with the new state. -/
def memRemove [DecidableEq D] (st : MemState D) (script_id : Int) (key : String) :
    Bool × MemState D :=
  (st.any (fun e => e.1 = makeKey script_id key),
   st.filter (fun e => e.1 ≠ makeKey script_id key))

/-- `MemoryKeyValueStore::remove_all` (MemoryKeyValueStore.hpp:118-131):
erase every entry whose script id matches, counting them. -/
def memRemoveAll [DecidableEq D] (st : MemState D) (script_id : Int) :
    Nat × MemState D :=
  ((st.filter (fun e => e.1.1 = script_id)).length,
   st.filter (fun e => e.1.1 ≠ script_id))

/-! ## SQLite backend (SQLiteKeyValueStore.cpp) -/

/-- The bytes actually passed by `sqlite3_bind_text(_, _, s.c_str(), -1, _)`:
the content of `s` up to (excluding) its first NUL character. -/
def cString (s : String) : String := String.mk (s.data.takeWhile (fun c => c ≠ '\x00'))

/-- One row of the `key_value_store` table
(columns script_id, key, value, type; SQLiteKeyValueStore.cpp:71-81). -/
structure Row where
  script_id : Int
  key : String
  value : String
  tag : Char
deriving DecidableEq

/-- The table contents; the primary key (script_id, key) makes row keys
unique in every reachable state. -/
abbrev SqlState := List Row

def sqlFind? (st : SqlState) (script_id : Int) (kb : String) : Option Row :=
  st.find? (fun r => r.script_id = script_id ∧ r.key = kb)

/-- `SQLiteKeyValueStore::set` (SQLiteKeyValueStore.cpp:91-111):
serialize, bind (truncating key and value at the first NUL), and execute
`INSERT OR REPLACE INTO key_value_store ... ` (SQLiteKeyValueStore.cpp:33-34),
which replaces any row with the same primary key. -/
def sqlSet [DecidableEq D] (fio : FloatIO D) (st : SqlState) (script_id : Int)
    (key : String) (value : ValueType D) : SqlState :=
  let p := serializeValue fio value
  let kb := cString key
  st.filter (fun r => ¬(r.script_id = script_id ∧ r.key = kb)) ++
    [⟨script_id, kb, cString p.1, p.2⟩]

/-- `SQLiteKeyValueStore::get` (SQLiteKeyValueStore.cpp:113-140): look the
row up (key bound with NUL truncation), read the value column back through
`std::string(const char*)` (another NUL truncation) and deserialize; no row
yields the explicit absent result. -/
def sqlGet [DecidableEq D] (fio : FloatIO D) (st : SqlState) (script_id : Int)
    (key : String) : Except String (Option (ValueType D)) :=
  match sqlFind? st script_id (cString key) with
  | none => .ok none
  | some r => (deserializeValue fio (cString r.value) r.tag).map some

/-- `SQLiteKeyValueStore::exists` (SQLiteKeyValueStore.cpp:142-154):
`SELECT 1 ... WHERE script_id = ? AND key = ?` steps to a row or not. -/
def sqlExists (st : SqlState) (script_id : Int) (key : String) : Bool :=
  (sqlFind? st script_id (cString key)).isSome

/-- `SQLiteKeyValueStore::remove` (SQLiteKeyValueStore.cpp:156-172):
`DELETE ... WHERE script_id = ? AND key = ?`, then `sqlite3_changes > 0`. -/
def sqlRemove (st : SqlState) (script_id : Int) (key : String) : Bool × SqlState :=
  let kb := cString key
  (st.any (fun r => r.script_id = script_id ∧ r.key = kb),
   st.filter (fun r => ¬(r.script_id = script_id ∧ r.key = kb)))

/-- `SQLiteKeyValueStore::remove_all` (SQLiteKeyValueStore.cpp:174-189):
`DELETE FROM key_value_store WHERE script_id = ?`, then `sqlite3_changes`. -/
def sqlRemoveAll (st : SqlState) (script_id : Int) : Nat × SqlState :=
  ((st.filter (fun r => r.script_id = script_id)).length,
   st.filter (fun r => r.script_id ≠ script_id))

/-! ## Well-behavedness predicates -/

/-- The string contains no NUL character (so `c_str()` binding passes it
whole). -/
def NoNul (s : String) : Prop := ∀ c ∈ s.data, c ≠ '\x00'

instance (s : String) : Decidable (NoNul s) := by
  unfold NoNul; infer_instance

/-- The serialized form of the value survives the NUL-truncating text
binding and parses back to the value itself.  For `Text` this asks that the
payload has no embedded NUL; for `Integer` and `Boolean` it is always true;
for `Real` it asks that the platform's double formatting/parsing pair
round-trips on this value (the C++ standard guarantees this for finite
doubles at max_digits10 precision). -/
def SerialOk [DecidableEq D] (fio : FloatIO D) : ValueType D → Prop
  | .vStr s => NoNul s
  | .vInt _ => True
  | .vDbl d => NoNul (fio.fmt d) ∧ fio.parse (fio.fmt d) = some (d, (fio.fmt d).length)
  | .vBool _ => True

/-- The weaker condition needed for `deserializeValue ∘ serializeValue = id`
alone (no text binding involved): only the double print/parse pair must
round-trip. -/
def ParseOk [DecidableEq D] (fio : FloatIO D) : ValueType D → Prop
  | .vDbl d => fio.parse (fio.fmt d) = some (d, (fio.fmt d).length)
  | _ => True

/-- Properties the real platform's double formatting/parsing satisfy for
every double: the formatted string has no NUL, and `stod` fully re-parses
it to some value (for NaN a value different from the original). -/
def PlatformOk (fio : FloatIO D) : Prop :=
  ∀ d : D, NoNul (fio.fmt d) ∧
    ∃ d', fio.parse (fio.fmt d) = some (d', (fio.fmt d).length)

/-- A two-point stand-in for the platform double type, used to exhibit
concrete witnesses for the conditional theorems. -/
def toyFio : FloatIO Bool :=
  ⟨fun b => if b then "T" else "F",
   fun s => if s = "T" then some (true, 1) else if s = "F" then some (false, 1) else none⟩

/-- The stored (value, type) pair of the row deserializes successfully. -/
def RowOk [DecidableEq D] (fio : FloatIO D) (r : Row) : Prop :=
  ∃ v : ValueType D, deserializeValue fio (cString r.value) r.tag = .ok v

/-! ## Full-parse predicates for the deserializer characterization -/

/-- The whole string is consumed by std::stoi (with std::stoi's leading
whitespace and sign handling) without overflow. -/
def IntFullParse (s : String) : Prop := ∃ c : CInt, stoiModel s = some (c, s.length)

/-- The whole string is consumed by std::stod. -/
def DblFullParse (fio : FloatIO D) (s : String) : Prop :=
  ∃ d, fio.parse s = some (d, s.length)

/-! ## Operations as state transformers, and reachable states -/

/-- One call through the `KeyValueStore` interface
(KeyValueStore.hpp:42-91). -/
inductive StoreOp (D : Type) where
  | opSet (script_id : Int) (key : String) (value : ValueType D)
  | opGet (script_id : Int) (key : String)
  | opExists (script_id : Int) (key : String)
  | opRemove (script_id : Int) (key : String)
  | opRemoveAll (script_id : Int)

/-- The read-only operations of the contract. -/
def isReader : StoreOp D → Bool
  | .opGet _ _ => true
  | .opExists _ _ => true
  | _ => false

/-- Effect of each memory-backend method on the map `store_`: the bodies of
`get` (MemoryKeyValueStore.hpp:60-68) and `exists` (83-86) only call
`store_.find` / `store_.contains` and leave the map as it was, while `set`,
`remove` and `remove_all` update it. -/
def memApply [DecidableEq D] : StoreOp D → MemState D → MemState D
  | .opSet p k v, st => memSet st p k v
  | .opGet _ _, st => st
  | .opExists _ _, st => st
  | .opRemove p k, st => (memRemove st p k).2
  | .opRemoveAll p, st => (memRemoveAll st p).2

/-- Effect of each SQLite-backend method on the table rows: `get`
(SQLiteKeyValueStore.cpp:113-140) and `exists` (142-154) only step SELECT
statements, which read rows without inserting, deleting or updating any. -/
def sqlApply [DecidableEq D] (fio : FloatIO D) : StoreOp D → SqlState → SqlState
  | .opSet p k v, st => sqlSet fio st p k v
  | .opGet _ _, st => st
  | .opExists _ _, st => st
  | .opRemove p k, st => (sqlRemove st p k).2
  | .opRemoveAll p, st => (sqlRemoveAll st p).2

/-- Memory-backend states reachable from the empty store through the public
interface. -/
inductive MemReachable [DecidableEq D] : MemState D → Prop where
  | empty : MemReachable []
  | set (script_id : Int) (key : String) (value : ValueType D) {st : MemState D} :
      MemReachable st → MemReachable (memSet st script_id key value)
  | remove (script_id : Int) (key : String) {st : MemState D} :
      MemReachable st → MemReachable (memRemove st script_id key).2
  | remove_all (script_id : Int) {st : MemState D} :
      MemReachable st → MemReachable (memRemoveAll st script_id).2

/-- SQLite-backend states reachable from the empty table through the public
interface. -/
inductive SqlReachable [DecidableEq D] (fio : FloatIO D) : SqlState → Prop where
  | empty : SqlReachable fio []
  | set (script_id : Int) (key : String) (value : ValueType D) {st : SqlState} :
      SqlReachable fio st → SqlReachable fio (sqlSet fio st script_id key value)
  | remove (script_id : Int) (key : String) {st : SqlState} :
      SqlReachable fio st → SqlReachable fio (sqlRemove st script_id key).2
  | remove_all (script_id : Int) {st : SqlState} :
      SqlReachable fio st → SqlReachable fio (sqlRemoveAll st script_id).2


/-! ## Helper lemmas: decimal digits -/

lemma digitChar_toNat {d : Nat} (h : d < 10) : (digitChar d).toNat = 48 + d := by
  unfold digitChar
  interval_cases d <;> decide

lemma isDigitC_digitChar {d : Nat} (h : d < 10) : isDigitC (digitChar d) = true := by
  simp [isDigitC, digitChar_toNat h]
  omega

lemma digitVal_digitChar {d : Nat} (h : d < 10) : digitVal (digitChar d) = d := by
  simp [digitVal, digitChar_toNat h]

lemma natDigits_ne_nil (n : Nat) : natDigits n ≠ [] := by
  rw [natDigits]
  split
  · simp
  · simp

lemma natDigits_all_digit (n : Nat) : ∀ c ∈ natDigits n, isDigitC c = true := by
  induction n using natDigits.induct with
  | case1 n h =>
    rw [natDigits]
    simp [h, isDigitC_digitChar h]
  | case2 n h ih =>
    rw [natDigits]
    simp only [h, dite_false, List.mem_append, List.mem_singleton]
    intro c hc
    rcases hc with hc | hc
    · exact ih c hc
    · subst hc
      exact isDigitC_digitChar (Nat.mod_lt _ (by omega))

lemma digitsVal_append (l : List Char) (c : Char) :
    digitsVal (l ++ [c]) = 10 * digitsVal l + digitVal c := by
  simp [digitsVal, List.foldl_append]

lemma digitsVal_natDigits (n : Nat) : digitsVal (natDigits n) = n := by
  induction n using natDigits.induct with
  | case1 n h =>
    rw [natDigits]
    simp [h, digitsVal, digitVal_digitChar h]
  | case2 n h ih =>
    rw [natDigits]
    simp only [h, dite_false]
    rw [digitsVal_append, ih, digitVal_digitChar (Nat.mod_lt _ (by omega))]
    omega

/-! ## Helper lemmas: character classes -/

lemma char_eq_of_toNat {a b : Char} (h : a.toNat = b.toNat) : a = b := Char.ext (UInt32.ext h)

lemma isDigitC_toNat {c : Char} (h : isDigitC c = true) : 48 ≤ c.toNat ∧ c.toNat ≤ 57 := by
  simpa [isDigitC] using h

lemma isDigit_not_space {c : Char} (h : isDigitC c = true) : isSpaceC c = false := by
  rcases Bool.eq_false_or_eq_true (isSpaceC c) with hs | hs
  · exfalso
    simp only [isSpaceC, Bool.or_eq_true, decide_eq_true_eq] at hs
    rcases hs with ((((h3 | h3) | h3) | h3) | h3) | h3 <;> (subst h3; exact absurd h (by decide))
  · exact hs

lemma isDigit_ne_minus {c : Char} (h : isDigitC c = true) : c ≠ '-' := by
  intro he
  subst he
  exact absurd h (by decide)

lemma isDigit_ne_plus {c : Char} (h : isDigitC c = true) : c ≠ '+' := by
  intro he
  subst he
  exact absurd h (by decide)

lemma isDigit_ne_nul {c : Char} (h : isDigitC c = true) : c ≠ '\x00' := by
  intro he
  subst he
  exact absurd h (by decide)

lemma takeWhile_of_all {α : Type} {p : α → Bool} {l : List α}
    (h : ∀ a ∈ l, p a = true) : l.takeWhile p = l :=
  List.takeWhile_eq_self_iff.mpr h

/-! ## Helper lemmas: to_string / stoi round trip -/

lemma cppToString_data_nonneg {n : Int} (h : 0 ≤ n) :
    (cppToString n).data = natDigits n.toNat := by
  unfold cppToString
  rw [if_neg (by omega)]

lemma cppToString_data_neg {n : Int} (h : n < 0) :
    (cppToString n).data = '-' :: natDigits (-n).toNat := by
  unfold cppToString
  rw [if_pos h]

lemma noNul_cppToString (n : Int) : NoNul (cppToString n) := by
  intro c hc
  by_cases h : 0 ≤ n
  · rw [cppToString_data_nonneg h] at hc
    exact isDigit_ne_nul (natDigits_all_digit _ c hc)
  · rw [cppToString_data_neg (by omega)] at hc
    rcases List.mem_cons.mp hc with hc | hc
    · subst hc; decide
    · exact isDigit_ne_nul (natDigits_all_digit _ c hc)

lemma cString_of_noNul {s : String} (h : NoNul s) : cString s = s := by
  unfold cString
  rw [takeWhile_of_all (fun a ha => decide_eq_true (h a ha))]

lemma stoiDigits_natDigits (sign : Int) (pre : Nat) (n : Nat)
    (h : intMin ≤ sign * (n : Int) ∧ sign * (n : Int) ≤ intMax) :
    stoiDigits sign pre (natDigits n) =
      some (⟨sign * (n : Int), h⟩, pre + (natDigits n).length) := by
  unfold stoiDigits
  rw [takeWhile_of_all (natDigits_all_digit n)]
  simp only [List.isEmpty_eq_true, natDigits_ne_nil n, if_false, digitsVal_natDigits]
  rw [dif_pos h]

lemma stoiModel_cppToString (c : CInt) :
    stoiModel (cppToString c.val) = some (c, (cppToString c.val).length) := by
  obtain ⟨hlo, hhi⟩ := c.prop
  by_cases h0 : 0 ≤ c.val
  · have hdata := cppToString_data_nonneg h0
    obtain ⟨c0, t0, he⟩ := List.exists_cons_of_ne_nil (natDigits_ne_nil c.val.toNat)
    have hc0 : isDigitC c0 = true :=
      natDigits_all_digit c.val.toNat c0 (by rw [he]; exact List.mem_cons_self c0 t0)
    have hcast : ((c.val.toNat : Int)) = c.val := Int.toNat_of_nonneg h0
    have hrange : intMin ≤ 1 * ((c.val.toNat : Int)) ∧ 1 * ((c.val.toNat : Int)) ≤ intMax := by
      rw [one_mul, hcast]; exact ⟨hlo, hhi⟩
    unfold stoiModel stoiCore
    rw [hdata, he, List.takeWhile_cons, List.dropWhile_cons,
        isDigit_not_space hc0]
    simp only [Bool.false_eq_true, if_false, List.length_nil]
    rw [if_neg (isDigit_ne_minus hc0), if_neg (isDigit_ne_plus hc0), ← he,
        stoiDigits_natDigits 1 0 c.val.toNat hrange]
    simp only [Option.some.injEq, Prod.mk.injEq, Subtype.ext_iff, one_mul, hcast,
      Nat.zero_add, true_and]
    simp [String.length, hdata]
  · have hneg : c.val < 0 := by omega
    have hdata := cppToString_data_neg hneg
    have hcast : (((-c.val).toNat : Int)) = -c.val := Int.toNat_of_nonneg (by omega)
    have hrange : intMin ≤ -1 * (((-c.val).toNat : Int)) ∧
        -1 * (((-c.val).toNat : Int)) ≤ intMax := by
      rw [hcast]; constructor <;> omega
    unfold stoiModel stoiCore
    rw [hdata, List.takeWhile_cons, List.dropWhile_cons]
    have hms : isSpaceC '-' = false := by decide
    rw [hms]
    simp only [Bool.false_eq_true, if_false, List.length_nil]
    rw [if_pos trivial, stoiDigits_natDigits (-1) (0 + 1) (-c.val).toNat hrange]
    simp only [Option.some.injEq, Prod.mk.injEq, Subtype.ext_iff, hcast]
    constructor
    · omega
    · simp [String.length, hdata]
      omega

/-! ## Serialization round trip -/

lemma deserializeValue_serializeValue {D : Type} [DecidableEq D] (fio : FloatIO D)
    (v : ValueType D) (h : ParseOk fio v) :
    deserializeValue fio (serializeValue fio v).1 (serializeValue fio v).2 = .ok v := by
  cases v with
  | vStr s => rfl
  | vInt c =>
    simp only [serializeValue, deserializeValue, stoiModel_cppToString c]
    rw [if_pos trivial]
  | vDbl d =>
    simp only [ParseOk] at h
    simp only [serializeValue, deserializeValue, h]
    rw [if_pos trivial]
  | vBool b => cases b <;> rfl

/-! ## Association-list lemmas -/

lemma find?_filter_of_imp {α : Type} {q m : α → Bool} (l : List α)
    (h : ∀ x, m x = true → q x = true) :
    (l.filter q).find? m = l.find? m := by
  induction l with
  | nil => rfl
  | cons a t ih =>
    rw [List.filter_cons]
    by_cases hq : q a = true
    · rw [if_pos hq]
      by_cases hm : m a = true
      · rw [List.find?_cons_of_pos _ hm, List.find?_cons_of_pos _ hm]
      · rw [List.find?_cons_of_neg _ hm, List.find?_cons_of_neg _ hm, ih]
    · rw [if_neg hq]
      have hm : ¬m a = true := fun hma => hq (h a hma)
      rw [List.find?_cons_of_neg _ hm, ih]

lemma any_filter_of_imp {α : Type} {q m : α → Bool} (l : List α)
    (h : ∀ x, m x = true → q x = true) :
    (l.filter q).any m = l.any m := by
  induction l with
  | nil => rfl
  | cons a t ih =>
    rw [List.filter_cons]
    by_cases hq : q a = true
    · rw [if_pos hq, List.any_cons, List.any_cons, ih]
    · rw [if_neg hq, List.any_cons]
      have hm : m a = false := by
        rcases Bool.eq_false_or_eq_true (m a) with h' | h'
        · exfalso; exact hq (h a h')
        · exact h'
      rw [hm, Bool.false_or, ih]

lemma find?_filter_not {α : Type} {q m : α → Bool} (l : List α)
    (h : ∀ x, m x = true → q x = false) :
    (l.filter q).find? m = none := by
  rw [List.find?_eq_none]
  intro x hx hm
  have := (List.mem_filter.mp hx).2
  rw [h x hm] at this
  exact Bool.false_ne_true this

/-! ## Memory backend lemmas -/

variable {D : Type} [DecidableEq D]

lemma memGet_memSet_self (st : MemState D) (p : Int) (k : String) (v : ValueType D) :
    memGet (memSet st p k v) p k = some v := by
  unfold memGet memSet
  rw [List.find?_append, find?_filter_not st ?himp]
  case himp =>
    intro x hx
    simp only [decide_eq_true_eq] at hx
    simpa using hx
  rw [Option.none_or, List.find?_cons_of_pos _ (by simp)]
  rfl

lemma memGet_memSet_ne (st : MemState D) {p p' : Int} {k k' : String} (v : ValueType D)
    (h : makeKey p' k' ≠ makeKey p k) :
    memGet (memSet st p k v) p' k' = memGet st p' k' := by
  unfold memGet memSet
  rw [List.find?_append, find?_filter_of_imp st ?himp]
  case himp =>
    intro x hx
    simp only [decide_eq_true_eq] at hx
    simp [hx, h]
  rw [List.find?_cons_of_neg _ (by simpa using fun hk => h hk.symm), List.find?_nil,
    Option.or_none]

lemma memExists_eq_isSome_memGet (st : MemState D) (p : Int) (k : String) :
    memExists st p k = (memGet st p k).isSome := by
  unfold memExists memGet
  cases hf : List.find? (fun e => e.1 = makeKey p k) st with
  | none =>
    rw [List.find?_eq_none] at hf
    simp only [Option.map_eq_map, Option.map_none', Option.isSome_none]
    rw [List.any_eq_false]
    exact hf
  | some e =>
    have hmem := List.mem_of_find?_eq_some hf
    have hpe := List.find?_some hf
    simp only [Option.map_eq_map, Option.map_some', Option.isSome_some]
    rw [List.any_eq_true]
    exact ⟨e, hmem, hpe⟩

lemma memRemove_fst (st : MemState D) (p : Int) (k : String) :
    (memRemove st p k).1 = memExists st p k := rfl

lemma memGet_memRemove_self (st : MemState D) (p : Int) (k : String) :
    memGet (memRemove st p k).2 p k = none := by
  unfold memGet memRemove
  rw [find?_filter_not st ?himp, Option.map_none']
  case himp =>
    intro x hx
    simp only [decide_eq_true_eq] at hx
    simp [hx]

lemma memGet_memRemove_ne (st : MemState D) {p p' : Int} {k k' : String}
    (h : makeKey p' k' ≠ makeKey p k) :
    memGet (memRemove st p k).2 p' k' = memGet st p' k' := by
  unfold memGet memRemove
  rw [find?_filter_of_imp st ?himp]
  case himp =>
    intro x hx
    simp only [decide_eq_true_eq] at hx
    simp [hx, h]

lemma memExists_memRemove_self (st : MemState D) (p : Int) (k : String) :
    memExists (memRemove st p k).2 p k = false := by
  rw [memExists_eq_isSome_memGet, memGet_memRemove_self]
  rfl

lemma memRemoveAll_fst (st : MemState D) (p : Int) :
    (memRemoveAll st p).1 = (st.filter (fun e => e.1.1 = p)).length := rfl

lemma memRemoveAll_no_entries (st : MemState D) (p : Int) :
    ∀ e ∈ (memRemoveAll st p).2, e.1.1 ≠ p := by
  intro e he
  have := (List.mem_filter.mp he).2
  simpa using this

lemma memGet_memRemoveAll_ne (st : MemState D) {p q : Int} (k : String) (h : q ≠ p) :
    memGet (memRemoveAll st p).2 q k = memGet st q k := by
  unfold memGet memRemoveAll
  rw [find?_filter_of_imp st ?himp]
  case himp =>
    intro x hx
    simp only [decide_eq_true_eq] at hx
    have : x.1.1 = q := by rw [hx]; rfl
    simp [this, h]

lemma memRemoveAll_idem (st : MemState D) (p : Int) :
    (memRemoveAll (memRemoveAll st p).2 p).1 = 0 := by
  unfold memRemoveAll
  rw [List.length_eq_zero, List.filter_eq_nil_iff]
  intro a ha
  have := (List.mem_filter.mp ha).2
  simp only [decide_eq_true_eq] at this ⊢
  intro hc
  rw [hc] at this
  simp at this

/-! ## SQLite backend lemmas -/

lemma serialOk_parseOk {fio : FloatIO D} {v : ValueType D} (h : SerialOk fio v) :
    ParseOk fio v := by
  cases v with
  | vDbl d => exact h.2
  | vStr s => trivial
  | vInt n => trivial
  | vBool b => trivial

lemma noNul_serialize {fio : FloatIO D} {v : ValueType D} (h : SerialOk fio v) :
    NoNul (serializeValue fio v).1 := by
  cases v with
  | vStr s => exact h
  | vInt n => exact noNul_cppToString n.val
  | vDbl d => exact h.1
  | vBool b =>
    cases b <;> (intro c hc; simp only [serializeValue] at hc) <;>
      (rcases List.mem_cons.mp hc with hc | hc
       · subst hc; decide
       · simp at hc)

lemma sqlFind?_sqlSet_self (fio : FloatIO D) (st : SqlState) (p : Int) (k : String)
    (v : ValueType D) :
    sqlFind? (sqlSet fio st p k v) p (cString k) =
      some ⟨p, cString k, cString (serializeValue fio v).1, (serializeValue fio v).2⟩ := by
  unfold sqlFind? sqlSet
  rw [List.find?_append, find?_filter_not st ?himp]
  case himp =>
    intro x hx
    simp only [decide_eq_true_eq] at hx
    simp [hx.1, hx.2]
  rw [Option.none_or, List.find?_cons_of_pos _ (by simp)]

lemma sqlFind?_sqlSet_ne (fio : FloatIO D) (st : SqlState) {p p' : Int} {kb kb' : String}
    (k : String) (v : ValueType D) (hkb : cString k = kb)
    (h : ¬(p' = p ∧ kb' = kb)) :
    sqlFind? (sqlSet fio st p k v) p' kb' = sqlFind? st p' kb' := by
  unfold sqlFind? sqlSet
  rw [List.find?_append, find?_filter_of_imp st ?himp]
  case himp =>
    intro x hx
    simp only [decide_eq_true_eq] at hx
    rw [hkb]
    simp only [decide_eq_true_eq]
    intro hc
    exact h ⟨by rw [← hx.1, hc.1], by rw [← hx.2, hc.2]⟩
  rw [List.find?_cons_of_neg _ ?hne, List.find?_nil, Option.or_none]
  case hne =>
    simp only [decide_eq_true_eq]
    rw [hkb]
    intro hc
    exact h ⟨hc.1.symm, hc.2.symm⟩

lemma sqlGet_sqlSet_self (fio : FloatIO D) (st : SqlState) (p : Int) (k : String)
    {v : ValueType D} (h : SerialOk fio v) :
    sqlGet fio (sqlSet fio st p k v) p k = .ok (some v) := by
  unfold sqlGet
  rw [sqlFind?_sqlSet_self]
  have hnn : cString (serializeValue fio v).1 = (serializeValue fio v).1 :=
    cString_of_noNul (noNul_serialize h)
  simp only [hnn]
  rw [deserializeValue_serializeValue fio v (serialOk_parseOk h)]
  rfl

lemma sqlExists_sqlSet_self (fio : FloatIO D) (st : SqlState) (p : Int) (k : String)
    (v : ValueType D) :
    sqlExists (sqlSet fio st p k v) p k = true := by
  unfold sqlExists
  rw [sqlFind?_sqlSet_self]
  rfl

lemma sqlExists_sqlSet_ne (fio : FloatIO D) (st : SqlState) {p p' : Int} {k k' : String}
    (v : ValueType D) (h : ¬(p' = p ∧ cString k' = cString k)) :
    sqlExists (sqlSet fio st p k v) p' k' = sqlExists st p' k' := by
  unfold sqlExists
  rw [sqlFind?_sqlSet_ne fio st k v rfl h]

lemma sqlGet_sqlSet_ne (fio : FloatIO D) (st : SqlState) {p p' : Int} {k k' : String}
    (v : ValueType D) (h : ¬(p' = p ∧ cString k' = cString k)) :
    sqlGet fio (sqlSet fio st p k v) p' k' = sqlGet fio st p' k' := by
  unfold sqlGet
  rw [sqlFind?_sqlSet_ne fio st k v rfl h]

lemma sqlRemove_fst (st : SqlState) (p : Int) (k : String) :
    (sqlRemove st p k).1 = sqlExists st p k := by
  unfold sqlRemove sqlExists sqlFind?
  cases hf : List.find? (fun r => r.script_id = p ∧ r.key = cString k) st with
  | none =>
    rw [List.find?_eq_none] at hf
    simp only [Option.isSome_none]
    rw [List.any_eq_false]
    exact hf
  | some r =>
    have hmem := List.mem_of_find?_eq_some hf
    have hpr := List.find?_some hf
    simp only [Option.isSome_some]
    rw [List.any_eq_true]
    exact ⟨r, hmem, hpr⟩

lemma sqlFind?_sqlRemove_self (st : SqlState) (p : Int) (k : String) :
    sqlFind? (sqlRemove st p k).2 p (cString k) = none := by
  unfold sqlFind? sqlRemove
  rw [find?_filter_not st ?himp]
  case himp =>
    intro x hx
    simp only [decide_eq_true_eq] at hx
    simp [hx.1, hx.2]

lemma sqlExists_sqlRemove_self (st : SqlState) (p : Int) (k : String) :
    sqlExists (sqlRemove st p k).2 p k = false := by
  unfold sqlExists
  rw [sqlFind?_sqlRemove_self]
  rfl

lemma sqlFind?_sqlRemove_ne (st : SqlState) {p p' : Int} {kb' : String} (k : String)
    (h : ¬(p' = p ∧ kb' = cString k)) :
    sqlFind? (sqlRemove st p k).2 p' kb' = sqlFind? st p' kb' := by
  unfold sqlFind? sqlRemove
  rw [find?_filter_of_imp st ?himp]
  case himp =>
    intro x hx
    simp only [decide_eq_true_eq] at hx
    simp only [decide_eq_true_eq]
    intro hc
    exact h ⟨by rw [← hx.1, hc.1], by rw [← hx.2, hc.2]⟩

lemma sqlRemoveAll_fst (st : SqlState) (p : Int) :
    (sqlRemoveAll st p).1 = (st.filter (fun r => r.script_id = p)).length := rfl

lemma sqlRemoveAll_no_entries (st : SqlState) (p : Int) :
    ∀ r ∈ (sqlRemoveAll st p).2, r.script_id ≠ p := by
  intro r hr
  have := (List.mem_filter.mp hr).2
  simpa using this

lemma sqlFind?_sqlRemoveAll_ne (st : SqlState) {p q : Int} (kb : String) (h : q ≠ p) :
    sqlFind? (sqlRemoveAll st p).2 q kb = sqlFind? st q kb := by
  unfold sqlFind? sqlRemoveAll
  rw [find?_filter_of_imp st ?himp]
  case himp =>
    intro x hx
    simp only [decide_eq_true_eq] at hx
    simp only [decide_eq_true_eq]
    rw [hx.1]
    exact h

lemma sqlRemoveAll_idem (st : SqlState) (p : Int) :
    (sqlRemoveAll (sqlRemoveAll st p).2 p).1 = 0 := by
  unfold sqlRemoveAll
  rw [List.length_eq_zero, List.filter_eq_nil_iff]
  intro a ha
  have := (List.mem_filter.mp ha).2
  simp only [decide_eq_true_eq] at this ⊢
  intro hc
  rw [hc] at this
  simp at this

/-! ## Uniqueness invariant (reachable states have unique keys) -/

lemma memReachable_nodup {st : MemState D} (h : MemReachable st) :
    (st.map (fun e => e.1)).Nodup := by
  induction h with
  | empty => simp
  | set p k v _ ih =>
    unfold memSet
    rw [List.map_append, List.nodup_append]
    refine ⟨List.Nodup.sublist (List.Sublist.map _ (List.filter_sublist _)) ih, by simp, ?_⟩
    intro a ha hb
    rcases List.mem_map.mp ha with ⟨e, he, rfl⟩
    have hpred := (List.mem_filter.mp he).2
    simp only [decide_eq_true_eq] at hpred
    simp only [List.map_cons, List.map_nil, List.mem_singleton] at hb
    exact hpred hb
  | remove p k _ ih =>
    exact List.Nodup.sublist (List.Sublist.map _ (List.filter_sublist _)) ih
  | remove_all p _ ih =>
    exact List.Nodup.sublist (List.Sublist.map _ (List.filter_sublist _)) ih

lemma memReachable_at_most_one {st : MemState D} (h : MemReachable st)
    {p : Int} {k : String} {v v' : ValueType D}
    (h1 : ((p, k), v) ∈ st) (h2 : ((p, k), v') ∈ st) : v = v' := by
  have := List.inj_on_of_nodup_map (memReachable_nodup h) h1 h2 rfl
  exact congrArg Prod.snd this

lemma sqlReachable_nodup {fio : FloatIO D} {st : SqlState} (h : SqlReachable fio st) :
    (st.map (fun r => (r.script_id, r.key))).Nodup := by
  induction h with
  | empty => simp
  | set p k v _ ih =>
    unfold sqlSet
    rw [List.map_append, List.nodup_append]
    refine ⟨List.Nodup.sublist (List.Sublist.map _ (List.filter_sublist _)) ih, by simp, ?_⟩
    intro a ha hb
    rcases List.mem_map.mp ha with ⟨r, hr, rfl⟩
    have hpred := (List.mem_filter.mp hr).2
    simp only [decide_eq_true_eq] at hpred
    simp only [List.map_cons, List.map_nil, List.mem_singleton] at hb
    exact hpred ⟨congrArg Prod.fst hb, congrArg Prod.snd hb⟩
  | remove p k _ ih =>
    exact List.Nodup.sublist (List.Sublist.map _ (List.filter_sublist _)) ih
  | remove_all p _ ih =>
    exact List.Nodup.sublist (List.Sublist.map _ (List.filter_sublist _)) ih

lemma sqlReachable_at_most_one {fio : FloatIO D} {st : SqlState} (h : SqlReachable fio st)
    {r r' : Row} (h1 : r ∈ st) (h2 : r' ∈ st)
    (hk : r.script_id = r'.script_id ∧ r.key = r'.key) : r = r' :=
  List.inj_on_of_nodup_map (sqlReachable_nodup h) h1 h2 (by rw [hk.1, hk.2])

/-! ## Row wellformedness (reachable SQLite rows deserialize) -/

lemma rowOk_of_set {fio : FloatIO D} (hp : PlatformOk fio) (p : Int) (k : String)
    (v : ValueType D) :
    RowOk fio (⟨p, cString k, cString (serializeValue fio v).1, (serializeValue fio v).2⟩ : Row) := by
  cases v with
  | vStr s => exact ⟨.vStr (cString (cString s)), rfl⟩
  | vInt c =>
    refine ⟨.vInt c, ?_⟩
    have h1 : cString (cppToString c.val) = cppToString c.val :=
      cString_of_noNul (noNul_cppToString _)
    simp only [serializeValue, h1, deserializeValue, stoiModel_cppToString c]
    rw [if_pos trivial]
  | vDbl d =>
    obtain ⟨hnn, d', hparse⟩ := hp d
    refine ⟨.vDbl d', ?_⟩
    have h1 : cString (fio.fmt d) = fio.fmt d := cString_of_noNul hnn
    simp only [serializeValue, h1, deserializeValue, hparse]
    rw [if_pos trivial]
  | vBool b =>
    cases b
    · exact ⟨.vBool false, by rfl⟩
    · exact ⟨.vBool true, by rfl⟩

lemma sqlReachable_rowOk {fio : FloatIO D} (hp : PlatformOk fio) {st : SqlState}
    (h : SqlReachable fio st) : ∀ r ∈ st, RowOk fio r := by
  induction h with
  | empty => simp
  | set p k v _ ih =>
    intro r hr
    simp only [sqlSet, List.mem_append, List.mem_singleton] at hr
    rcases hr with hr | hr
    · exact ih r (List.mem_of_mem_filter hr)
    · subst hr
      exact rowOk_of_set hp p k v
  | remove p k _ ih =>
    intro r hr
    exact ih r (List.mem_of_mem_filter hr)
  | remove_all p _ ih =>
    intro r hr
    exact ih r (List.mem_of_mem_filter hr)

lemma sqlExists_iff_sqlGet {fio : FloatIO D} {st : SqlState}
    (hok : ∀ r ∈ st, RowOk fio r) (p : Int) (k : String) :
    sqlExists st p k = true ↔ ∃ v, sqlGet fio st p k = .ok (some v) := by
  unfold sqlExists sqlGet
  cases hf : sqlFind? st p (cString k) with
  | none => simp
  | some r =>
    unfold sqlFind? at hf
    have hmem : r ∈ st := List.mem_of_find?_eq_some hf
    obtain ⟨v, hv⟩ := hok r hmem
    simp only [Option.isSome_some, true_iff]
    exact ⟨v, by rw [hv]; rfl⟩

/-! ## Readers do not change the state -/

lemma memApply_reader (op : StoreOp D) (st : MemState D) (h : isReader op = true) :
    memApply op st = st := by
  cases op <;> (try rfl) <;> simp [isReader] at h

lemma sqlApply_reader (fio : FloatIO D) (op : StoreOp D) (st : SqlState)
    (h : isReader op = true) : sqlApply fio op st = st := by
  cases op <;> (try rfl) <;> simp [isReader] at h

/-- C1 (amended): set followed by get returns a value equal to the original,
for every value in the memory backend, and in the durable backend for every
value whose serialized text survives the NUL-truncating bind (all Integers
and Booleans, NUL-free Text, Reals on which the platform double print/parse
round-trips); deserializeValue after serializeValue is the identity for
every value (Reals under the same platform round-trip condition). -/
theorem C1_roundtrip (fio : FloatIO D) (st : MemState D) (ss : SqlState)
    (p : Int) (k : String) (v : ValueType D) :
    memGet (memSet st p k v) p k = some v ∧
    (ParseOk fio v →
      deserializeValue fio (serializeValue fio v).1 (serializeValue fio v).2 = .ok v) ∧
    (SerialOk fio v → sqlGet fio (sqlSet fio ss p k v) p k = .ok (some v)) :=
  ⟨memGet_memSet_self st p k v,
   fun hparse => deserializeValue_serializeValue fio v hparse,
   fun hser => sqlGet_sqlSet_self fio ss p k hser⟩

/-- C1 witness: the round trip at the empty-string Text value (showing the
stored empty Text comes back present and distinct from absent), and at the
NUL-containing Text value "a\x00b", which round-trips through the memory
backend and through deserializeValue∘serializeValue. -/
theorem C1_witness :
    memGet (memSet ([] : MemState Bool) 1 "" (.vStr "")) 1 "" = some (.vStr "") ∧
    memGet (memSet ([] : MemState Bool) 1 "k" (.vStr "a\x00b")) 1 "k" =
      some (.vStr "a\x00b") ∧
    deserializeValue toyFio (serializeValue toyFio (.vStr "a\x00b")).1
      (serializeValue toyFio (.vStr "a\x00b")).2 = .ok (.vStr "a\x00b") ∧
    sqlGet toyFio (sqlSet toyFio [] 1 "" (.vStr "")) 1 "" = .ok (some (.vStr "")) :=
  ⟨(C1_roundtrip toyFio [] [] 1 "" (.vStr "")).1,
   (C1_roundtrip toyFio [] [] 1 "k" (.vStr "a\x00b")).1,
   (C1_roundtrip toyFio [] [] 1 "k" (.vStr "a\x00b")).2.1 trivial,
   (C1_roundtrip toyFio [] [] 1 "" (.vStr "")).2.2 (by show NoNul ""; decide)⟩

/-- C1 counterexample: in the durable backend, storing the Text value
"a\x00b" and reading it back yields the Text value "a", not a value equal
to the original, because sqlite3_bind_text is called with length -1 and
truncates the serialized value at its first NUL byte. -/
theorem C1_cex :
    sqlGet toyFio (sqlSet toyFio [] 1 "k" (.vStr "a\x00b")) 1 "k" =
      .ok (some (.vStr "a")) ∧
    (ValueType.vStr "a" : ValueType Bool) ≠ .vStr "a\x00b" :=
  ⟨rfl, by decide⟩

lemma sqlGet_sqlRemove_ne (fio : FloatIO D) (st : SqlState) {p p' : Int} {k k' : String}
    (h : ¬(p' = p ∧ cString k' = cString k)) :
    sqlGet fio (sqlRemove st p k).2 p' k' = sqlGet fio st p' k' := by
  unfold sqlGet
  rw [sqlFind?_sqlRemove_ne st k h]

lemma sqlGet_sqlRemoveAll_ne (fio : FloatIO D) (st : SqlState) {p q : Int} (k : String)
    (h : q ≠ p) :
    sqlGet fio (sqlRemoveAll st p).2 q k = sqlGet fio st q k := by
  unfold sqlGet
  rw [sqlFind?_sqlRemoveAll_ne st (cString k) h]

/-- C2 (amended): partition isolation.  For p ≠ q, set(p,k,v1) then
set(q,k,v2) gives get(p,k) == v1 and get(q,k) == v2 — unconditionally in the
memory backend, and in the durable backend for values whose serialized text
survives the NUL-truncating bind; moreover remove/remove_all on partition q
leave partition p's entry unchanged in both backends. -/
theorem C2_isolation (fio : FloatIO D) (ms : MemState D) (ss : SqlState)
    (p q : Int) (k : String) (v1 v2 : ValueType D) (hpq : p ≠ q) :
    (memGet (memSet (memSet ms p k v1) q k v2) p k = some v1 ∧
     memGet (memSet (memSet ms p k v1) q k v2) q k = some v2) ∧
    (∀ k', memGet (memRemove (memSet ms p k v1) q k').2 p k
        = memGet (memSet ms p k v1) p k) ∧
    (memGet (memRemoveAll (memSet ms p k v1) q).2 p k = memGet (memSet ms p k v1) p k) ∧
    (SerialOk fio v1 →
      sqlGet fio (sqlSet fio (sqlSet fio ss p k v1) q k v2) p k = .ok (some v1)) ∧
    (SerialOk fio v2 →
      sqlGet fio (sqlSet fio (sqlSet fio ss p k v1) q k v2) q k = .ok (some v2)) ∧
    (∀ k', sqlGet fio (sqlRemove (sqlSet fio ss p k v1) q k').2 p k
        = sqlGet fio (sqlSet fio ss p k v1) p k) ∧
    (sqlGet fio (sqlRemoveAll (sqlSet fio ss p k v1) q).2 p k
        = sqlGet fio (sqlSet fio ss p k v1) p k) := by
  refine ⟨⟨?_, ?_⟩, ?_, ?_, ?_, ?_, ?_, ?_⟩
  · rw [memGet_memSet_ne _ v2 (by simp [makeKey, hpq]), memGet_memSet_self]
  · exact memGet_memSet_self _ q k v2
  · intro k'
    exact memGet_memRemove_ne _ (by simp [makeKey, hpq])
  · exact memGet_memRemoveAll_ne _ k hpq
  · intro h1
    rw [sqlGet_sqlSet_ne fio _ v2 (fun hc => hpq hc.1), sqlGet_sqlSet_self fio ss p k h1]
  · intro h2
    exact sqlGet_sqlSet_self fio _ q k h2
  · intro k'
    exact sqlGet_sqlRemove_ne fio _ (fun hc => hpq hc.1)
  · exact sqlGet_sqlRemoveAll_ne fio _ k hpq

/-- C2 witness: isolation of partitions 1 and 2 under the shared key "a",
with a NUL-containing Text value on the memory side. -/
theorem C2_witness :
    memGet (memSet (memSet ([] : MemState Bool) 1 "a" (.vStr "x\x00y")) 2 "a"
      (.vBool true)) 1 "a" = some (.vStr "x\x00y") ∧
    sqlGet toyFio (sqlSet toyFio (sqlSet toyFio [] 1 "a" (.vBool true)) 2 "a"
      (.vInt ⟨42, by decide⟩)) 2 "a" = .ok (some (.vInt ⟨42, by decide⟩)) :=
  ⟨(C2_isolation toyFio [] [] 1 2 "a" (.vStr "x\x00y") (.vBool true)
      (by decide)).1.1,
   (C2_isolation toyFio [] [] 1 2 "a" (.vBool true) (.vInt ⟨42, by decide⟩)
      (by decide)).2.2.2.2.1 trivial⟩

/-- C2 counterexample: with v1 the Text value "x\x00y", the durable backend
returns Text "x" for get(1,"q") after the two writes, not a value equal to
v1 (the claim asserts get(P,K) == v1 for every v1). -/
theorem C2_cex :
    (1 : Int) ≠ 2 ∧
    sqlGet toyFio (sqlSet toyFio (sqlSet toyFio [] 1 "q" (.vStr "x\x00y")) 2 "q"
      (.vStr "z")) 1 "q" = .ok (some (.vStr "x")) ∧
    (ValueType.vStr "x" : ValueType Bool) ≠ .vStr "x\x00y" :=
  ⟨by decide, rfl, by decide⟩

/-- C3 (amended): in every reachable state of either backend at most one
value is associated with a (partition id, key) pair, and set on an existing
pair overwrites it: set(p,k,v1) then set(p,k,v2) makes get(p,k) return v2 —
unconditionally in the memory backend, and in the durable backend when v2's
serialized text survives the NUL-truncating bind. -/
theorem C3_overwrite (fio : FloatIO D) {ms : MemState D} {ss : SqlState}
    (hm : MemReachable ms) (hs : SqlReachable fio ss)
    (p : Int) (k : String) (v1 v2 : ValueType D) :
    (∀ (p' : Int) (k' : String) (w w' : ValueType D),
       ((p', k'), w) ∈ ms → ((p', k'), w') ∈ ms → w = w') ∧
    (∀ r r' : Row, r ∈ ss → r' ∈ ss →
       r.script_id = r'.script_id → r.key = r'.key → r = r') ∧
    memGet (memSet (memSet ms p k v1) p k v2) p k = some v2 ∧
    (SerialOk fio v2 →
      sqlGet fio (sqlSet fio (sqlSet fio ss p k v1) p k v2) p k = .ok (some v2)) := by
  refine ⟨?_, ?_, ?_, ?_⟩
  · intro p' k' w w' h1' h2'
    exact memReachable_at_most_one hm h1' h2'
  · intro r r' hr hr' hsid hkey
    exact sqlReachable_at_most_one hs hr hr' ⟨hsid, hkey⟩
  · exact memGet_memSet_self _ p k v2
  · intro h2
    exact sqlGet_sqlSet_self fio _ p k h2

/-- C3 witness: last write wins at a concrete overwrite in both backends,
with the memory backend overwritten by a NUL-containing Text value. -/
theorem C3_witness :
    memGet (memSet (memSet ([] : MemState Bool) 1 "k" (.vBool false)) 1 "k"
      (.vStr "w\x00z")) 1 "k" = some (.vStr "w\x00z") ∧
    sqlGet toyFio (sqlSet toyFio (sqlSet toyFio [] 1 "k" (.vBool false)) 1 "k"
      (.vBool true)) 1 "k" = .ok (some (.vBool true)) :=
  ⟨(C3_overwrite toyFio MemReachable.empty SqlReachable.empty 1 "k"
      (.vBool false) (.vStr "w\x00z")).2.2.1,
   (C3_overwrite toyFio MemReachable.empty SqlReachable.empty 1 "k"
      (.vBool false) (.vBool true)).2.2.2 trivial⟩

/-- C3 counterexample: overwriting with v2 = Text "q\x00r" in the durable
backend makes get return Text "q", not v2 as the claim states. -/
theorem C3_cex :
    sqlGet toyFio (sqlSet toyFio (sqlSet toyFio [] 1 "n" (.vStr "p")) 1 "n"
      (.vStr "q\x00r")) 1 "n" = .ok (some (.vStr "q")) ∧
    (ValueType.vStr "q" : ValueType Bool) ≠ .vStr "q\x00r" :=
  ⟨rfl, by decide⟩

/-- C4: remove_all(p) leaves zero entries with partition id p, returns the
exact number of entries that had partition id p before the call (0 on a
second call, so it is idempotent), and leaves every entry of any other
partition untouched — in both backends. -/
theorem C4_remove_all (fio : FloatIO D) (ms : MemState D) (ss : SqlState) (p : Int) :
    (memRemoveAll ms p).1 = ms.countP (fun e => e.1.1 = p) ∧
    (∀ e ∈ (memRemoveAll ms p).2, e.1.1 ≠ p) ∧
    (∀ q k, q ≠ p → memGet (memRemoveAll ms p).2 q k = memGet ms q k) ∧
    (memRemoveAll (memRemoveAll ms p).2 p).1 = 0 ∧
    (sqlRemoveAll ss p).1 = ss.countP (fun r => r.script_id = p) ∧
    (∀ r ∈ (sqlRemoveAll ss p).2, r.script_id ≠ p) ∧
    (∀ q k, q ≠ p → sqlGet fio (sqlRemoveAll ss p).2 q k = sqlGet fio ss q k) ∧
    (sqlRemoveAll (sqlRemoveAll ss p).2 p).1 = 0 := by
  refine ⟨?_, memRemoveAll_no_entries ms p, ?_, memRemoveAll_idem ms p,
    ?_, sqlRemoveAll_no_entries ss p, ?_, sqlRemoveAll_idem ss p⟩
  · rw [memRemoveAll_fst, List.countP_eq_length_filter]
  · intro q k hq
    exact memGet_memRemoveAll_ne ms k hq
  · rw [sqlRemoveAll_fst, List.countP_eq_length_filter]
  · intro q k hq
    exact sqlGet_sqlRemoveAll_ne fio ss k hq

/-- C4 witness: remove_all(1) on a one-entry store returns 1 in both
backends. -/
theorem C4_witness :
    (memRemoveAll (memSet ([] : MemState Bool) 1 "a" (.vBool true)) 1).1 = 1 ∧
    (sqlRemoveAll (sqlSet toyFio [] 1 "a" (.vBool true)) 1).1 = 1 := by
  have h := C4_remove_all toyFio (memSet ([] : MemState Bool) 1 "a" (.vBool true))
    (sqlSet toyFio [] 1 "a" (.vBool true)) 1
  exact ⟨by rw [h.1]; rfl, by rw [h.2.2.2.2.1]; rfl⟩

/-- C5: remove(p,k) returns true exactly when an entry for (p,k) was
present (and removes it), and returns false when it was absent; after a set,
removing twice yields true then false — in both backends. -/
theorem C5_remove (fio : FloatIO D) (ms : MemState D) (ss : SqlState)
    (p : Int) (k : String) (v : ValueType D) :
    (memRemove ms p k).1 = memExists ms p k ∧
    memExists (memRemove ms p k).2 p k = false ∧
    (memRemove (memSet ms p k v) p k).1 = true ∧
    (memRemove (memRemove (memSet ms p k v) p k).2 p k).1 = false ∧
    (sqlRemove ss p k).1 = sqlExists ss p k ∧
    sqlExists (sqlRemove ss p k).2 p k = false ∧
    (sqlRemove (sqlSet fio ss p k v) p k).1 = true ∧
    (sqlRemove (sqlRemove (sqlSet fio ss p k v) p k).2 p k).1 = false := by
  refine ⟨memRemove_fst ms p k, memExists_memRemove_self ms p k, ?_, ?_,
    sqlRemove_fst ss p k, sqlExists_sqlRemove_self ss p k, ?_, ?_⟩
  · rw [memRemove_fst, memExists_eq_isSome_memGet, memGet_memSet_self]
    rfl
  · rw [memRemove_fst, memExists_memRemove_self]
  · rw [sqlRemove_fst, sqlExists_sqlSet_self]
  · rw [sqlRemove_fst, sqlExists_sqlRemove_self]

/-- C6: in every reachable store state (with a platform whose double
formatting always re-parses, as real platforms do), exists(p,k) returns true
if and only if get(p,k) returns a value rather than the absent result — in
both backends. -/
theorem C6_exists_get {fio : FloatIO D} {ms : MemState D} {ss : SqlState}
    (hp : PlatformOk fio) (_hm : MemReachable ms) (hs : SqlReachable fio ss)
    (p : Int) (k : String) :
    (memExists ms p k = true ↔ ∃ v, memGet ms p k = some v) ∧
    (sqlExists ss p k = true ↔ ∃ v, sqlGet fio ss p k = .ok (some v)) := by
  constructor
  · rw [memExists_eq_isSome_memGet]
    exact Option.isSome_iff_exists
  · exact sqlExists_iff_sqlGet (sqlReachable_rowOk hp hs) p k

/-- C6 witness: exists agrees with get on a concrete reachable SQLite
state. -/
theorem C6_witness :
    sqlExists (sqlSet toyFio [] 1 "a" (.vBool true)) 1 "a" = true ↔
      ∃ v, sqlGet toyFio (sqlSet toyFio [] 1 "a" (.vBool true)) 1 "a" = .ok (some v) :=
  (C6_exists_get (fun d => by cases d <;> exact ⟨by decide, _, rfl⟩)
    (MemReachable.set 1 "a" (.vBool true) MemReachable.empty)
    (SqlReachable.set 1 "a" (.vBool true) SqlReachable.empty) 1 "a").2

/-- C7: deserialization strictness.  Deserializing (s, t) succeeds exactly
when t is 's', or t is 'i' and std::stoi consumes all of s without overflow,
or t is 'd' and std::stod consumes all of s, or t is 'b' and s is exactly
"1" or "0"; in particular every tag outside {s,i,d,b} fails, and trailing
garbage or a malformed number fails rather than producing a default. -/
theorem C7_strictness (fio : FloatIO D) (s : String) (t : Char) :
    (∃ v, deserializeValue fio s t = .ok v) ↔
      (t = 's' ∨ (t = 'i' ∧ IntFullParse s) ∨ (t = 'd' ∧ DblFullParse fio s) ∨
       (t = 'b' ∧ (s = "1" ∨ s = "0"))) := by
  unfold deserializeValue
  split
  · exact iff_of_true ⟨_, rfl⟩ (Or.inl rfl)
  · rename_i hmatch
    cases hmatch : stoiModel s with
    | none =>
      refine iff_of_false ?_ ?_
      · rintro ⟨v, hv⟩
        simp [hmatch] at hv
      · rintro (h | ⟨-, c, hc⟩ | ⟨h, -⟩ | ⟨h, -⟩)
        · exact absurd h (by decide)
        · rw [hmatch] at hc
          cases hc
        · exact absurd h (by decide)
        · exact absurd h (by decide)
    | some cp =>
      obtain ⟨c, pos⟩ := cp
      by_cases hpos : pos = s.length
      · subst hpos
        refine iff_of_true ⟨.vInt c, by simp [hmatch]⟩ (Or.inr (Or.inl ⟨rfl, c, hmatch⟩))
      · refine iff_of_false ?_ ?_
        · rintro ⟨v, hv⟩
          simp [hmatch, hpos] at hv
        · rintro (h | ⟨-, c', hc⟩ | ⟨h, -⟩ | ⟨h, -⟩)
          · exact absurd h (by decide)
          · rw [hmatch] at hc
            injection hc with hc
            exact hpos (congrArg Prod.snd hc)
          · exact absurd h (by decide)
          · exact absurd h (by decide)
  · cases hmatch : fio.parse s with
    | none =>
      refine iff_of_false ?_ ?_
      · rintro ⟨v, hv⟩
        simp [hmatch] at hv
      · rintro (h | ⟨h, -⟩ | ⟨-, d, hd⟩ | ⟨h, -⟩)
        · exact absurd h (by decide)
        · exact absurd h (by decide)
        · rw [hmatch] at hd
          cases hd
        · exact absurd h (by decide)
    | some dp =>
      obtain ⟨d, pos⟩ := dp
      by_cases hpos : pos = s.length
      · subst hpos
        exact iff_of_true ⟨.vDbl d, by simp [hmatch]⟩
          (Or.inr (Or.inr (Or.inl ⟨rfl, d, hmatch⟩)))
      · refine iff_of_false ?_ ?_
        · rintro ⟨v, hv⟩
          simp [hmatch, hpos] at hv
        · rintro (h | ⟨h, -⟩ | ⟨-, d', hd⟩ | ⟨h, -⟩)
          · exact absurd h (by decide)
          · exact absurd h (by decide)
          · rw [hmatch] at hd
            injection hd with hd
            exact hpos (congrArg Prod.snd hd)
          · exact absurd h (by decide)
  · by_cases h1 : s = "1"
    · subst h1
      refine iff_of_true ⟨.vBool true, by rw [if_pos rfl]⟩
        (Or.inr (Or.inr (Or.inr ⟨rfl, Or.inl rfl⟩)))
    · by_cases h0 : s = "0"
      · subst h0
        refine iff_of_true ⟨.vBool false, by rw [if_neg h1, if_pos rfl]⟩
          (Or.inr (Or.inr (Or.inr ⟨rfl, Or.inr rfl⟩)))
      · refine iff_of_false ?_ ?_
        · rintro ⟨v, hv⟩
          rw [if_neg h1, if_neg h0] at hv
          cases hv
        · rintro (h | ⟨h, -⟩ | ⟨h, -⟩ | ⟨-, h | h⟩)
          · exact absurd h (by decide)
          · exact absurd h (by decide)
          · exact absurd h (by decide)
          · exact h1 h
          · exact h0 h
  · rename_i hne1 hne2 hne3 hne4
    refine iff_of_false ?_ ?_
    · rintro ⟨v, hv⟩
      cases hv
    · rintro (h | ⟨h, -⟩ | ⟨h, -⟩ | ⟨h, -⟩)
      · exact hne1 h
      · exact hne2 h
      · exact hne3 h
      · exact hne4 h

/-- C8 (amended): the Integer kind holds a platform int (32-bit, the range
[-2^31, 2^31-1]); every such integer can be stored by set and retrieved by
get with the same numeric value in both backends, and is serialized as a
decimal string that parses back exactly. -/
theorem C8_int_roundtrip (fio : FloatIO D) (ms : MemState D) (ss : SqlState)
    (p : Int) (k : String) (c : CInt) :
    memGet (memSet ms p k (.vInt c)) p k = some (.vInt c) ∧
    sqlGet fio (sqlSet fio ss p k (.vInt c)) p k = .ok (some (.vInt c)) ∧
    deserializeValue fio (serializeValue fio (.vInt c)).1
      (serializeValue fio (.vInt c)).2 = .ok (.vInt c) :=
  ⟨memGet_memSet_self ms p k (.vInt c), sqlGet_sqlSet_self fio ss p k trivial,
   deserializeValue_serializeValue fio (.vInt c) trivial⟩

/-- C8 counterexample: the decimal serialization of 2^31 (a 64-bit-safe
integer, "2147483648") fails to deserialize under tag 'i' because std::stoi
throws out_of_range beyond the int range, and 2^31 exceeds intMax, so no
Integer value can carry it: the Integer kind is not 64-bit-safe. -/
theorem C8_cex :
    digitsVal ("2147483648" : String).data = 2 ^ 31 ∧
    (deserializeValue toyFio "2147483648" 'i').toOption = none ∧
    intMax < 2 ^ 31 := by
  refine ⟨rfl, rfl, ?_⟩
  norm_num [intMax]

/-- C9 (amended): the memory backend stores an entry under exactly the key
K for arbitrary byte strings (including embedded NUL bytes), and its get,
exists and remove address exactly that entry; the durable backend does the
same for keys that contain no NUL byte (it truncates bound keys at the
first NUL). -/
theorem C9_keys (fio : FloatIO D) (ms : MemState D) (ss : SqlState)
    (p : Int) (k k' : String) (v : ValueType D) (hne : k' ≠ k) :
    (memGet (memSet ms p k v) p k = some v ∧
     memGet (memSet ms p k v) p k' = memGet ms p k' ∧
     memExists (memSet ms p k v) p k = true ∧
     (memRemove (memSet ms p k v) p k).1 = true) ∧
    (NoNul k → NoNul k' →
      sqlExists (sqlSet fio ss p k v) p k = true ∧
      sqlExists (sqlSet fio ss p k v) p k' = sqlExists ss p k' ∧
      sqlGet fio (sqlSet fio ss p k v) p k' = sqlGet fio ss p k' ∧
      (sqlRemove (sqlSet fio ss p k v) p k).1 = true) := by
  refine ⟨⟨memGet_memSet_self ms p k v, ?_, ?_, ?_⟩, ?_⟩
  · exact memGet_memSet_ne ms v (by simp [makeKey, hne])
  · rw [memExists_eq_isSome_memGet, memGet_memSet_self]
    rfl
  · rw [memRemove_fst, memExists_eq_isSome_memGet, memGet_memSet_self]
    rfl
  · intro h1 h2
    have hcne : ¬(p = p ∧ cString k' = cString k) := by
      rw [cString_of_noNul h1, cString_of_noNul h2]
      rintro ⟨-, hc⟩
      exact hne hc
    refine ⟨sqlExists_sqlSet_self fio ss p k v, ?_, ?_, ?_⟩
    · exact sqlExists_sqlSet_ne fio ss v hcne
    · exact sqlGet_sqlSet_ne fio ss v hcne
    · rw [sqlRemove_fst, sqlExists_sqlSet_self]

/-- C9 witness: the memory backend addresses the distinct NUL-containing
keys "a\x00b" and "a\x00c" exactly (the pair that collides in the durable
backend), and the durable backend addresses the NUL-free keys "x" and "y"
exactly. -/
theorem C9_witness :
    memGet (memSet ([] : MemState Bool) 1 "a\x00b" (.vBool false)) 1 "a\x00b" =
      some (.vBool false) ∧
    memGet (memSet ([] : MemState Bool) 1 "a\x00b" (.vBool false)) 1 "a\x00c" =
      memGet [] 1 "a\x00c" ∧
    sqlExists (sqlSet toyFio [] 1 "x" (.vBool false)) 1 "y" = sqlExists [] 1 "y" :=
  ⟨(C9_keys toyFio [] [] 1 "a\x00b" "a\x00c" (.vBool false) (by decide)).1.1,
   (C9_keys toyFio [] [] 1 "a\x00b" "a\x00c" (.vBool false) (by decide)).1.2.1,
   ((C9_keys toyFio [] [] 1 "x" "y" (.vBool false) (by decide)).2
      (by decide) (by decide)).2.1⟩

/-- C9 counterexample: the distinct keys "a\x00b" and "a\x00c" collide in
the durable backend — get with the second key returns the value stored
under the first, because keys are bound with length -1 and truncated at the
first NUL byte. -/
theorem C9_cex :
    ("a\x00b" : String) ≠ "a\x00c" ∧
    sqlGet toyFio (sqlSet toyFio [] 1 "a\x00b" (.vBool true)) 1 "a\x00c" =
      .ok (some (.vBool true)) :=
  ⟨by decide, rfl⟩

/-- C10: get and exists leave the set of entries and every stored value
unchanged in both backends; only set, remove and remove_all change the
store's state. -/
theorem C10_readers (fio : FloatIO D) (op : StoreOp D) (ms : MemState D)
    (ss : SqlState) (h : isReader op = true) :
    memApply op ms = ms ∧ sqlApply fio op ss = ss :=
  ⟨memApply_reader op ms h, sqlApply_reader fio op ss h⟩

/-- C10 witness: a get call leaves a concrete one-entry state of each
backend unchanged. -/
theorem C10_witness :
    memApply (StoreOp.opGet 1 "a") ([((1, "a"), ValueType.vBool true)] : MemState Bool) =
      [((1, "a"), ValueType.vBool true)] ∧
    sqlApply toyFio (StoreOp.opGet 1 "a") [⟨1, "a", "1", 'b'⟩] = [⟨1, "a", "1", 'b'⟩] :=
  C10_readers toyFio (StoreOp.opGet 1 "a") _ _ rfl

end KVStore
